import Mathlib

/-!
# Arithmetic Machine — a shallow embedding of `src/main.c`

A stack-based virtual machine over IEEE-754 doubles, with two scalar
registers and absolute conditional jumps.  The embedding below follows the
C source line by line:

* Doubles are modelled as `ℚ`.  Every value the VM's sample programs and the
  claims manipulate (small integer constants, their sums, differences,
  products and quotients, and the decoded binary64 constants `100.0` and the
  wire bytes of `12.54`) is a finite binary64 value on which IEEE arithmetic
  is exact, so rational arithmetic coincides with the double arithmetic the C
  code performs.  NaN and the infinities have no rational counterpart;
  `decodeF64` maps the `e = 0x7FF` patterns to `0`, and no program or claim
  touches them.
* The arithmetic of the machine is written with the normalized-fraction
  constructor `Rat.divInt` (`qadd`, `qsub`, `qmul`, `qdiv`) rather than with
  `ℚ`'s bundled `+ - * /`, because the bundled operations are `irreducible`
  and would block kernel evaluation of concrete runs.  The lemmas `qadd_eq`,
  `qsub_eq`, `qmul_eq`, `qdiv_eq` prove the two agree, so theorems are
  stated with the ordinary operations.
* Bytecode is a `List ℕ` of byte values; `vm->code[pc]` is `code[pc]?`,
  with an out-of-range fetch — undefined behaviour in C — surfacing as the
  explicit `ub` outcome.
* The C stack is a 256-slot array with top index `sp` (`-1` when empty),
  accessed by the unchecked `PUSH`/`POP` macros.  It is modelled as a
  `List ℚ` with the top at the head (so `sp = stack.length - 1`); the
  accesses that would fall outside `stack[0..255]` — pushing a 257th value
  or popping an empty stack — are exactly the `ub` outcomes of `push`/`pop`.
* `printf` output is modelled as a list of events: the value printed by
  `PRINT`, and the two diagnostic lines with the datum each reports.
  `fmt6` reproduces `printf("%f", v)` for finite values: sign, integer part,
  and six fractional digits, rounding the exact value to nearest, ties to
  even.
-/

/-! ## Exact double arithmetic on `ℚ` -/

/-- `a + b` computed as a normalized fraction (see the header). -/
def qadd (a b : ℚ) : ℚ := Rat.divInt (a.num * b.den + b.num * a.den) (a.den * b.den)

/-- `a - b` computed as a normalized fraction. -/
def qsub (a b : ℚ) : ℚ := Rat.divInt (a.num * b.den - b.num * a.den) (a.den * b.den)

/-- `a * b` computed as a normalized fraction. -/
def qmul (a b : ℚ) : ℚ := Rat.divInt (a.num * b.num) (a.den * b.den)

/-- `a / b` computed as a normalized fraction (`run` only divides after its
explicit `b == 0` test). -/
def qdiv (a b : ℚ) : ℚ := Rat.divInt (a.num * b.den) (a.den * b.num)

/-- `STACK_SIZE`: maximum number of values on the stack. -/
def STACK_SIZE : ℕ := 256

/-! ## Opcodes (`enum opcodes`) -/

def HALT : ℕ := 0x00
def DCONST_M1 : ℕ := 0x0A
def DCONST_0 : ℕ := 0x0B
def DCONST_1 : ℕ := 0x0C
def DCONST_2 : ℕ := 0x0D
def DCONST : ℕ := 0x0F
def JEQ : ℕ := 0x10
def JNE : ℕ := 0x11
def JLT : ℕ := 0x12
def JLE : ℕ := 0x13
def JGT : ℕ := 0x14
def JGE : ℕ := 0x15
def ADD : ℕ := 0x60
def SUB : ℕ := 0x61
def MUL : ℕ := 0x62
def DIV : ℕ := 0x64
def NEG : ℕ := 0x70
def NOP : ℕ := 0xF0
def PRINT : ℕ := 0xF2
def ST1 : ℕ := 0xF4
def LD1 : ℕ := 0xF5
def ST2 : ℕ := 0xF6
def LD2 : ℕ := 0xF7

/-- The VM state (`struct VM`): registers `r1`, `r2`, the operand stack
(top first; the C `sp` is `stack.length - 1`), and the program counter.
The bytecode buffer is passed separately since the VM only borrows it. -/
structure VM where
  r1 : ℚ
  r2 : ℚ
  stack : List ℚ
  pc : ℕ
deriving DecidableEq, Repr

/-- `newVM`: pc `0`, empty stack (`sp = -1`), both registers `0.0`. -/
def newVM : VM :=
  { r1 := 0, r2 := 0, stack := [], pc := 0 }

/-- An output line: either the value `PRINT` hands to `printf("%f\n", v)`,
or one of the two diagnostics with the datum it reports
(`"RuntimeException: Division by zero @ PC = %d\n"` carries `vm->pc`,
`"InvalidOpcodeError: %x\n"` carries the opcode byte). -/
inductive Ev where
  | val (v : ℚ)
  | divByZero (pc : ℕ)
  | invalidOpcode (b : ℕ)
deriving DecidableEq, Repr

/-- Result of one iteration of the dispatch loop: continue with a new state,
return from `run` with an exit status (`true` = `EXIT_SUCCESS`), or hit
undefined behaviour (an out-of-bounds code or stack access). -/
inductive StepRes where
  | cont (s : VM) (out : List Ev)
  | done (ok : Bool) (out : List Ev) (s : VM)
  | ub (s : VM)
deriving DecidableEq, Repr

/-- The VM state carried by a step result. -/
def StepRes.state : StepRes → VM
  | .cont s _ => s
  | .done _ _ s => s
  | .ub s => s

/-- `PUSH(vm, v)`, i.e. `vm->stack[++vm->sp] = v`: `none` when the write
would land outside the 256-slot array. -/
def push (s : VM) (v : ℚ) : Option VM :=
  if STACK_SIZE ≤ s.stack.length then none
  else some { s with stack := v :: s.stack }

/-- `POP(vm)`, i.e. `vm->stack[vm->sp--]`: `none` when the stack is empty
and the read would be `stack[-1]`. -/
def pop (s : VM) : Option (ℚ × VM) :=
  match s.stack with
  | [] => none
  | v :: rest => some (v, { s with stack := rest })

/-- Reads bytes `code[pc] .. code[pc+n-1]`; `none` if any is out of range. -/
def bytesAt (code : List ℕ) (pc n : ℕ) : Option (List ℕ) :=
  (List.range n).mapM fun i => code[pc + i]?

/-- Big-endian (wire order, most-significant byte first) decoding of 4 bytes
to the absolute jump address, as `JMP` produces it: `memcpy` into the 4-byte
`pc` followed by `convertToLittleEndian` on a little-endian host. -/
def decode4 (b0 b1 b2 b3 : ℕ) : ℕ :=
  ((b0 * 256 + b1) * 256 + b2) * 256 + b3

/-- Big-endian decoding of 8 bytes as an IEEE-754 binary64 value, as the
`DCONST` case produces it (`memcpy` into a `double` plus the conditional
byte swap on little-endian hosts).  The value of a pattern with biased
exponent `e` and mantissa field `m` is `±(2^52 + m) / 2^52 · 2^(e-1023)`
(`±m / 2^52 · 2^(-1022)` when subnormal).  The `e = 0x7FF` patterns
(infinities, NaNs) have no rational value and are mapped to `0`; no program
in the repository encodes one. -/
def decodeF64 (b0 b1 b2 b3 b4 b5 b6 b7 : ℕ) : ℚ :=
  let bits := [b1, b2, b3, b4, b5, b6, b7].foldl (fun acc b => acc * 256 + b) b0
  let sign : ℤ := if bits / 2 ^ 63 = 1 then -1 else 1
  let e : ℕ := bits / 2 ^ 52 % 2 ^ 11
  let m : ℕ := bits % 2 ^ 52
  if e = 0 then Rat.divInt (sign * (m : ℤ)) (2 ^ (52 + 1022))
  else if e = 2047 then 0
  else if 1023 ≤ e then Rat.divInt (sign * ((2 ^ 52 + m : ℕ) : ℤ) * 2 ^ (e - 1023)) (2 ^ 52)
  else Rat.divInt (sign * ((2 ^ 52 + m : ℕ) : ℤ)) (2 ^ (52 + (1023 - e)))

/-- Push with the dispatch-loop plumbing: continue on success, undefined
behaviour when the store is out of bounds. -/
def pushStep (s : VM) (v : ℚ) : StepRes :=
  match push s v with
  | none => .ub s
  | some s1 => .cont s1 []

/-- `b = POP; a = POP; PUSH(a op b)` — the shape of `ADD`, `SUB`, `MUL`. -/
def binopStep (s : VM) (f : ℚ → ℚ → ℚ) : StepRes :=
  match pop s with
  | none => .ub s
  | some (b, s1) =>
    match pop s1 with
    | none => .ub s1
    | some (a, s2) => pushStep s2 (f a b)

/-- A conditional jump (`JEQ` .. `JGE`): when the comparison holds, `JMP`
reads the 4 operand bytes at `pc` and sets `pc` to the decoded absolute
address; when it does not hold, the C `case` just `break`s — `pc` is left
pointing at the first operand byte. -/
def condJump (code : List ℕ) (s : VM) (cond : Bool) : StepRes :=
  if cond then
    match bytesAt code s.pc 4 with
    | some [b0, b1, b2, b3] => .cont { s with pc := decode4 b0 b1 b2 b3 } []
    | _ => .ub s
  else .cont s []

/-- `case DIV`: `b = POP; a = POP; if (b == 0)` report the current `pc` and
return `EXIT_FAILURE`; `else PUSH(a / b)`. -/
def divStep (s : VM) : StepRes :=
  match pop s with
  | none => .ub s
  | some (b, s1) =>
    match pop s1 with
    | none => .ub s1
    | some (a, s2) =>
      if b = 0 then .done false [.divByZero s2.pc] s2
      else pushStep s2 (qdiv a b)

/-- `case NEG`: `v = POP; PUSH(-v)`. -/
def negStep (s : VM) : StepRes :=
  match pop s with
  | none => .ub s
  | some (v, s1) => pushStep s1 (Rat.neg v)

/-- `case ST1`: `vm->r1 = POP(vm)`. -/
def st1Step (s : VM) : StepRes :=
  match pop s with
  | none => .ub s
  | some (v, s1) => .cont { s1 with r1 := v } []

/-- `case ST2`: `vm->r2 = POP(vm)`. -/
def st2Step (s : VM) : StepRes :=
  match pop s with
  | none => .ub s
  | some (v, s1) => .cont { s1 with r2 := v } []

/-- `case PRINT`: `v = POP; printf("%f\n", v)`. -/
def printStep (s : VM) : StepRes :=
  match pop s with
  | none => .ub s
  | some (v, s1) => .cont s1 [.val v]

/-- The `switch (opcode)` of the dispatch loop, applied to the state `s`
after `NCODE` has advanced `pc` past the opcode byte. -/
def exec (code : List ℕ) (opcode : ℕ) (s : VM) : StepRes :=
  if opcode = HALT then .done true [] s
    else if opcode = NOP then .cont s []
    else if opcode = DCONST_M1 then pushStep s (-1)
    else if opcode = DCONST_0 then pushStep s 0
    else if opcode = DCONST_1 then pushStep s 1
    else if opcode = DCONST_2 then pushStep s 2
    else if opcode = DCONST then
      match bytesAt code s.pc 8 with
      | some [b0, b1, b2, b3, b4, b5, b6, b7] =>
        pushStep { s with pc := s.pc + 8 } (decodeF64 b0 b1 b2 b3 b4 b5 b6 b7)
      | _ => .ub s
    else if opcode = JEQ then condJump code s (decide (s.r1 = s.r2))
    else if opcode = JNE then condJump code s (decide (s.r1 ≠ s.r2))
    else if opcode = JLT then condJump code s (decide (s.r1 < s.r2))
    else if opcode = JLE then condJump code s (decide (s.r1 ≤ s.r2))
    else if opcode = JGT then condJump code s (decide (s.r2 < s.r1))
    else if opcode = JGE then condJump code s (decide (s.r2 ≤ s.r1))
    else if opcode = ADD then binopStep s qadd
    else if opcode = MUL then binopStep s qmul
    else if opcode = SUB then binopStep s qsub
    else if opcode = DIV then divStep s
    else if opcode = NEG then negStep s
    else if opcode = LD1 then pushStep s s.r1
    else if opcode = ST1 then st1Step s
    else if opcode = LD2 then pushStep s s.r2
    else if opcode = ST2 then st2Step s
    else if opcode = PRINT then printStep s
    else .done false [.invalidOpcode opcode] s

/-- One iteration of the `for (;;)` dispatch loop in `run`: fetch the opcode
at `pc` (`NCODE` advances `pc` by 1), then the `switch` (`exec`). -/
def step (code : List ℕ) (vm : VM) : StepRes :=
  match code[vm.pc]? with
  | none => .ub vm
  | some opcode => exec code opcode { vm with pc := vm.pc + 1 }

/-- Outcome of a whole run: `terminated ok out final` when `run` returned
(`ok = true` for `EXIT_SUCCESS`), `undef` when execution hit an
out-of-bounds access (undefined behaviour in the C program). -/
inductive RunRes where
  | terminated (ok : Bool) (out : List Ev) (final : VM)
  | undef (out : List Ev) (final : VM)
deriving DecidableEq, Repr

/-- `run`, fuel-indexed: `none` means the fuel ran out with the loop still
going (the C loop just keeps iterating). -/
def run (code : List ℕ) : ℕ → VM → Option RunRes
  | 0, _ => none
  | n + 1, s =>
    match step code s with
    | .done ok out sf => some (.terminated ok out sf)
    | .ub sf => some (.undef [] sf)
    | .cont s1 out =>
      match run code n s1 with
      | none => none
      | some (.terminated ok out1 sf) => some (.terminated ok (out ++ out1) sf)
      | some (.undef out1 sf) => some (.undef (out ++ out1) sf)

/-! ## Output formatting (`printf("%f\n", v)`) -/

/-- Left-pad the fractional part to six digits. -/
def pad6 (n : ℕ) : String :=
  let s := toString n
  String.mk (List.replicate (6 - s.length) '0') ++ s

/-- The text `printf("%f", v)` produces for a finite value: optional sign,
integer part, `'.'`, six fractional digits — the exact value rounded to six
decimal places, to nearest with ties to even (the default rounding mode).
Computed on `|v| = v.num.natAbs / v.den`: scale by `10^6`, then round. -/
def fmt6 (v : ℚ) : String :=
  let sign := if v.num < 0 then "-" else ""
  let scaled := v.num.natAbs * 1000000
  let f := scaled / v.den
  let rem2 := 2 * (scaled % v.den)
  let n := if rem2 < v.den then f
           else if v.den < rem2 then f + 1
           else if f % 2 = 0 then f else f + 1
  sign ++ toString (n / 1000000) ++ "." ++ pad6 (n % 1000000)

/-- One `PRINT` line: `printf("%f\n", v)`. -/
def printLine (v : ℚ) : String := fmt6 v ++ "\n"

/-! ## The bytecode fixtures of `main` -/

/-- `bytecode`: `[DCONST_2, DCONST_1, SUB, PRINT, HALT]`. -/
def bytecode : List ℕ := [DCONST_2, DCONST_1, SUB, PRINT, HALT]

/-- `readmebytecode`: `DCONST` with the 8 wire bytes of `12.54`, `PRINT`,
`HALT`. -/
def readmebytecode : List ℕ :=
  [DCONST, 0x40, 0x29, 0x14, 0x7A, 0xE1, 0x47, 0xAE, 0x14, PRINT, HALT]

/-- `fibonacciCode`: prints Fibonacci numbers, looping via `JGT` back to
offset 6 while `100.0 > r2`. -/
def fibonacciCode : List ℕ :=
  [DCONST_0, DCONST_0, PRINT,
   DCONST_1, DCONST_1, PRINT,
   ST2, ST1,
   LD1, LD2,
   ADD, ST1, LD1, LD1, PRINT,
   LD2, ADD, ST2, LD2, PRINT,
   LD1, LD2,
   DCONST, 0x40, 0x59, 0, 0, 0, 0, 0, 0,
   ST1,
   JGT, 0, 0, 0, 6,
   HALT]

/-- The closed opcode set (`enum opcodes`): every byte value the `switch`
in `run` has a case for. -/
def opcodes : List ℕ :=
  [HALT, DCONST_M1, DCONST_0, DCONST_1, DCONST_2, DCONST,
   JEQ, JNE, JLT, JLE, JGT, JGE,
   ADD, SUB, MUL, DIV, NEG, NOP, PRINT, ST1, LD1, ST2, LD2]

/-- The comparison of `r1` to `r2` that each conditional jump applies
(`JEQ`: `r1 == r2`, `JNE`: `r1 != r2`, `JLT`: `r1 < r2`, `JLE`: `r1 <= r2`,
`JGT`: `r1 > r2`, `JGE`: `r1 >= r2`). -/
def jumpTest (op : ℕ) (a b : ℚ) : Bool :=
  if op = JEQ then decide (a = b)
  else if op = JNE then decide (a ≠ b)
  else if op = JLT then decide (a < b)
  else if op = JLE then decide (a ≤ b)
  else if op = JGT then decide (b < a)
  else decide (b ≤ a)

/-! ## The fraction arithmetic agrees with `ℚ`'s bundled operations -/

/-- `qadd` is addition. -/
theorem qadd_eq (a b : ℚ) : qadd a b = a + b := by
  have ha : (a.den : ℚ) ≠ 0 := Nat.cast_ne_zero.mpr a.den_nz
  have hb : (b.den : ℚ) ≠ 0 := Nat.cast_ne_zero.mpr b.den_nz
  rw [qadd, Rat.divInt_eq_div]
  conv_rhs => rw [← Rat.num_div_den a, ← Rat.num_div_den b]
  rw [div_add_div _ _ ha hb]
  push_cast
  ring

/-- `qsub` is subtraction. -/
theorem qsub_eq (a b : ℚ) : qsub a b = a - b := by
  have ha : (a.den : ℚ) ≠ 0 := Nat.cast_ne_zero.mpr a.den_nz
  have hb : (b.den : ℚ) ≠ 0 := Nat.cast_ne_zero.mpr b.den_nz
  rw [qsub, Rat.divInt_eq_div]
  conv_rhs => rw [← Rat.num_div_den a, ← Rat.num_div_den b]
  rw [div_sub_div _ _ ha hb]
  push_cast
  ring

/-- `qmul` is multiplication. -/
theorem qmul_eq (a b : ℚ) : qmul a b = a * b := by
  rw [qmul, Rat.divInt_eq_div]
  conv_rhs => rw [← Rat.num_div_den a, ← Rat.num_div_den b]
  rw [div_mul_div_comm]
  push_cast
  ring

/-- `qdiv` is division. -/
theorem qdiv_eq (a b : ℚ) : qdiv a b = a / b := by
  by_cases hb0 : b = 0
  · subst hb0
    rw [qdiv]
    norm_num
  · have ha : (a.den : ℚ) ≠ 0 := Nat.cast_ne_zero.mpr a.den_nz
    have hbd : (b.den : ℚ) ≠ 0 := Nat.cast_ne_zero.mpr b.den_nz
    have hbn : (b.num : ℚ) ≠ 0 := Int.cast_ne_zero.mpr (Rat.num_ne_zero.mpr hb0)
    rw [qdiv, Rat.divInt_eq_div]
    conv_rhs => rw [← Rat.num_div_den a, ← Rat.num_div_den b]
    push_cast
    field_simp

/-- The machine's negation is `ℚ`'s negation. -/
theorem qneg_eq (a : ℚ) : Rat.neg a = -a := rfl

/-! ## Structural facts about the dispatch helpers -/

@[simp] theorem state_cont (s : VM) (out : List Ev) : (StepRes.cont s out).state = s := rfl

@[simp] theorem state_done (ok : Bool) (out : List Ev) (s : VM) :
    (StepRes.done ok out s).state = s := rfl

@[simp] theorem state_ub (s : VM) : (StepRes.ub s).state = s := rfl

/-- A successful `push` conses the value onto the stack and changes nothing
else. -/
theorem push_some {s : VM} {v : ℚ} {s1 : VM} (h : push s v = some s1) :
    s1 = { s with stack := v :: s.stack } := by
  unfold push at h
  split at h
  · cases h
  · exact (Option.some.inj h).symm

/-- `push` succeeds exactly below the capacity. -/
theorem push_of_lt {s : VM} {v : ℚ} (h : s.stack.length < STACK_SIZE) :
    push s v = some { s with stack := v :: s.stack } := by
  unfold push
  rw [if_neg (by omega)]

/-- A successful `pop` removes the head of the stack and changes nothing
else. -/
theorem pop_some {s : VM} {v : ℚ} {s1 : VM} (h : pop s = some (v, s1)) :
    s1.r1 = s.r1 ∧ s1.r2 = s.r2 ∧ s1.pc = s.pc ∧ s.stack = v :: s1.stack := by
  unfold pop at h
  rcases hs : s.stack with _ | ⟨w, rest⟩ <;> rw [hs] at h
  · cases h
  · obtain ⟨rfl, rfl⟩ : w = v ∧ { s with stack := rest } = s1 := by
      simpa using h
    exact ⟨rfl, rfl, rfl, rfl⟩

theorem pushStep_state_r1 (s : VM) (v : ℚ) : (pushStep s v).state.r1 = s.r1 := by
  unfold pushStep
  cases hp : push s v with
  | none => rfl
  | some s1 => rw [show (StepRes.cont s1 []).state = s1 from rfl, push_some hp]

theorem pushStep_state_r2 (s : VM) (v : ℚ) : (pushStep s v).state.r2 = s.r2 := by
  unfold pushStep
  cases hp : push s v with
  | none => rfl
  | some s1 => rw [show (StepRes.cont s1 []).state = s1 from rfl, push_some hp]

theorem condJump_state_r1 (code : List ℕ) (s : VM) (c : Bool) :
    (condJump code s c).state.r1 = s.r1 := by
  unfold condJump
  split
  · split <;> rfl
  · rfl

theorem condJump_state_r2 (code : List ℕ) (s : VM) (c : Bool) :
    (condJump code s c).state.r2 = s.r2 := by
  unfold condJump
  split
  · split <;> rfl
  · rfl

theorem binopStep_state_r1 (s : VM) (f : ℚ → ℚ → ℚ) :
    (binopStep s f).state.r1 = s.r1 := by
  rcases hs : s.stack with _ | ⟨b, rest⟩
  · simp [binopStep, pop, hs]
  · rcases rest with _ | ⟨a, rest2⟩ <;>
      simp [binopStep, pop, hs, pushStep_state_r1]

theorem binopStep_state_r2 (s : VM) (f : ℚ → ℚ → ℚ) :
    (binopStep s f).state.r2 = s.r2 := by
  rcases hs : s.stack with _ | ⟨b, rest⟩
  · simp [binopStep, pop, hs]
  · rcases rest with _ | ⟨a, rest2⟩ <;>
      simp [binopStep, pop, hs, pushStep_state_r2]

theorem divStep_state_r1 (s : VM) : (divStep s).state.r1 = s.r1 := by
  rcases hs : s.stack with _ | ⟨b, rest⟩
  · simp [divStep, pop, hs]
  · rcases rest with _ | ⟨a, rest2⟩
    · simp [divStep, pop, hs]
    · by_cases hb : b = 0 <;>
        simp [divStep, pop, hs, hb, pushStep_state_r1]

theorem divStep_state_r2 (s : VM) : (divStep s).state.r2 = s.r2 := by
  rcases hs : s.stack with _ | ⟨b, rest⟩
  · simp [divStep, pop, hs]
  · rcases rest with _ | ⟨a, rest2⟩
    · simp [divStep, pop, hs]
    · by_cases hb : b = 0 <;>
        simp [divStep, pop, hs, hb, pushStep_state_r2]

theorem negStep_state_r1 (s : VM) : (negStep s).state.r1 = s.r1 := by
  rcases hs : s.stack with _ | ⟨v, rest⟩ <;>
    simp [negStep, pop, hs, pushStep_state_r1]

theorem negStep_state_r2 (s : VM) : (negStep s).state.r2 = s.r2 := by
  rcases hs : s.stack with _ | ⟨v, rest⟩ <;>
    simp [negStep, pop, hs, pushStep_state_r2]

theorem st1Step_state_r2 (s : VM) : (st1Step s).state.r2 = s.r2 := by
  rcases hs : s.stack with _ | ⟨v, rest⟩ <;>
    simp [st1Step, pop, hs]

theorem st2Step_state_r1 (s : VM) : (st2Step s).state.r1 = s.r1 := by
  rcases hs : s.stack with _ | ⟨v, rest⟩ <;>
    simp [st2Step, pop, hs]

theorem printStep_state_r1 (s : VM) : (printStep s).state.r1 = s.r1 := by
  rcases hs : s.stack with _ | ⟨v, rest⟩ <;>
    simp [printStep, pop, hs]

theorem printStep_state_r2 (s : VM) : (printStep s).state.r2 = s.r2 := by
  rcases hs : s.stack with _ | ⟨v, rest⟩ <;>
    simp [printStep, pop, hs]

/-- Dividing by zero: `divStep` pops both operands, reports the current
`pc`, and returns `EXIT_FAILURE` without pushing a quotient. -/
theorem divStep_zero (s : VM) (a b : ℚ) (rest : List ℚ)
    (hstack : s.stack = b :: a :: rest) (hb : b = 0) :
    divStep s = .done false [.divByZero s.pc] { s with stack := rest } := by
  subst hb
  simp [divStep, pop, hstack]

/-- Executing `DIV` with divisor `0` at the step level: the diagnostic
carries `s.pc + 1` (the byte after the `DIV` opcode) and the final state has
both operands popped, nothing pushed, and the registers untouched. -/
theorem step_div_zero (code : List ℕ) (s : VM) (a b : ℚ) (rest : List ℚ)
    (hop : code[s.pc]? = some DIV) (hstack : s.stack = b :: a :: rest)
    (hb : b = 0) :
    step code s = .done false [.divByZero (s.pc + 1)] { s with pc := s.pc + 1, stack := rest } := by
  have hdiv := divStep_zero { s with pc := s.pc + 1 } a b rest (by simpa using hstack) hb
  simp only [step, exec, hop, HALT, NOP, DCONST_M1, DCONST_0, DCONST_1, DCONST_2, DCONST,
    JEQ, JNE, JLT, JLE, JGT, JGE, ADD, MUL, SUB, DIV]
  norm_num
  exact hdiv

/-! ## The claims -/

/-- C2: `SUB` pops `b` (the top, pushed second) then `a` and pushes `a - b`;
and the sample program `[DCONST_2, DCONST_1, SUB, PRINT, HALT]` prints
exactly `1.000000` plus a line terminator and returns `EXIT_SUCCESS`. -/
theorem sub_minuend_order :
    (∀ (code : List ℕ) (s : VM) (a b : ℚ) (rest : List ℚ),
      code[s.pc]? = some SUB → s.stack = b :: a :: rest →
      s.stack.length ≤ STACK_SIZE →
      step code s = .cont { s with pc := s.pc + 1, stack := (a - b) :: rest } []) ∧
    run bytecode 10 newVM
      = some (.terminated true [.val 1] { r1 := 0, r2 := 0, stack := [], pc := 5 }) ∧
    printLine 1 = "1.000000\n" := by
  refine ⟨?_, by decide, by decide⟩
  intro code s a b rest hop hstack hcap
  rw [hstack] at hcap
  have hlen : ¬ (STACK_SIZE ≤ rest.length) := by
    simp only [List.length_cons, STACK_SIZE] at hcap ⊢
    omega
  simp [step, exec, hop, HALT, NOP, DCONST_M1, DCONST_0, DCONST_1, DCONST_2, DCONST,
    JEQ, JNE, JLT, JLE, JGT, JGE, ADD, MUL, SUB,
    binopStep, pop, hstack, pushStep, push, hlen, qsub_eq]

/-- Witness for C2 at a concrete state: `SUB` on the stack `[1, 2]`
(top first) yields `[2 - 1]`. -/
theorem sub_minuend_order_witness :
    step [SUB] { r1 := 0, r2 := 0, stack := [1, 2], pc := 0 }
      = .cont { r1 := 0, r2 := 0, stack := [2 - 1], pc := 1 } [] :=
  sub_minuend_order.1 [SUB] _ 2 1 [] rfl rfl (by decide)

/-- C3: `DIV` with popped divisor `0` terminates the run at once with
`EXIT_FAILURE` and the division-by-zero diagnostic carrying the program
counter, pushing no quotient; and `[DCONST_1, DCONST_0, DIV, PRINT, HALT]`
fails that way with no `PRINT` output. -/
theorem div_by_zero_fatal :
    (∀ (code : List ℕ) (s : VM) (a b : ℚ) (rest : List ℚ),
      code[s.pc]? = some DIV → s.stack = b :: a :: rest → b = 0 →
      step code s = .done false [.divByZero (s.pc + 1)]
        { s with pc := s.pc + 1, stack := rest }) ∧
    run [DCONST_1, DCONST_0, DIV, PRINT, HALT] 10 newVM
      = some (.terminated false [.divByZero 3] { r1 := 0, r2 := 0, stack := [], pc := 3 }) := by
  exact ⟨fun code s a b rest hop hstack hb => step_div_zero code s a b rest hop hstack hb,
    by decide⟩

/-- Witness for C3 at a concrete state: `DIV` over the stack `[0, 1]`. -/
theorem div_by_zero_fatal_witness :
    step [DIV] { r1 := 0, r2 := 0, stack := [0, 1], pc := 0 }
      = .done false [.divByZero 1] { r1 := 0, r2 := 0, stack := [], pc := 1 } :=
  div_by_zero_fatal.1 [DIV] _ 1 0 [] rfl rfl rfl

/-- C9: at the point of a division-by-zero failure both operands are
already off the stack (`sp` dropped by 2), no quotient was pushed, the
registers are unchanged, and the reported program counter is the offset
just after the `DIV` opcode byte. -/
theorem div_by_zero_failure_state (code : List ℕ) (s : VM) (a b : ℚ) (rest : List ℚ)
    (hop : code[s.pc]? = some DIV) (hstack : s.stack = b :: a :: rest)
    (hb : b = 0) :
    step code s = .done false [.divByZero (s.pc + 1)]
      { s with pc := s.pc + 1, stack := rest } ∧
    ({ s with pc := s.pc + 1, stack := rest } : VM).r1 = s.r1 ∧
    ({ s with pc := s.pc + 1, stack := rest } : VM).r2 = s.r2 ∧
    rest.length + 2 = s.stack.length := by
  refine ⟨step_div_zero code s a b rest hop hstack hb, rfl, rfl, ?_⟩
  rw [hstack]
  rfl

/-- Witness for C9 at a concrete state: `DIV` over the stack `[0, 5, 7]`
with nonzero registers. -/
theorem div_by_zero_failure_state_witness :
    step [DIV] { r1 := 3, r2 := 4, stack := [0, 5, 7], pc := 0 }
      = .done false [.divByZero 1] { r1 := 3, r2 := 4, stack := [7], pc := 1 } ∧
    ({ r1 := 3, r2 := 4, stack := [7], pc := 1 } : VM).r1 = (3 : ℚ) ∧
    ({ r1 := 3, r2 := 4, stack := [7], pc := 1 } : VM).r2 = (4 : ℚ) ∧
    (1 : ℕ) + 2 = 3 :=
  div_by_zero_failure_state [DIV] { r1 := 3, r2 := 4, stack := [0, 5, 7], pc := 0 }
    5 0 [7] rfl rfl rfl

/-- C4: a fetched byte outside the closed opcode set terminates the
dispatch loop at once with `EXIT_FAILURE` and a diagnostic carrying the
byte value; and `[0xFF, HALT]` fails with `InvalidOpcode` on byte `0xFF`
without reaching `HALT`. -/
theorem invalid_opcode_fatal :
    (∀ (code : List ℕ) (s : VM) (op : ℕ), code[s.pc]? = some op → op ∉ opcodes →
      step code s = .done false [.invalidOpcode op] { s with pc := s.pc + 1 }) ∧
    run [0xFF, HALT] 10 newVM
      = some (.terminated false [.invalidOpcode 0xFF] { r1 := 0, r2 := 0, stack := [], pc := 1 }) := by
  refine ⟨?_, by decide⟩
  intro code s op hop hmem
  simp only [opcodes, List.mem_cons, List.not_mem_nil, or_false, not_or] at hmem
  obtain ⟨h1, h2, h3, h4, h5, h6, h7, h8, h9, h10, h11, h12, h13, h14, h15, h16, h17,
    h18, h19, h20, h21, h22, h23⟩ := hmem
  simp [step, exec, hop, h1, h2, h3, h4, h5, h6, h7, h8, h9, h10, h11, h12, h13, h14, h15,
    h16, h17, h18, h19, h20, h21, h22, h23]

/-- Witness for C4 at a concrete state: byte `0xAB` is not an opcode. -/
theorem invalid_opcode_fatal_witness :
    step [0xAB] newVM
      = .done false [.invalidOpcode 0xAB] { r1 := 0, r2 := 0, stack := [], pc := 1 } :=
  invalid_opcode_fatal.1 [0xAB] newVM 0xAB rfl (by decide)

set_option maxRecDepth 100000 in
/-- C5 (the code lacks the claimed checks): popping an empty stack (`ST1`
as the first instruction) and pushing a 257th value (257 consecutive
`DCONST_0`) both drive the machine into the out-of-bounds access `undef`
outcome — the reference has no `StackUnderflow`/`StackOverflow` error path,
it reads `stack[-1]` resp. writes `stack[256]`. -/
theorem stack_bounds_unchecked :
    run [ST1, HALT] 10 newVM
      = some (.undef [] { r1 := 0, r2 := 0, stack := [], pc := 1 }) ∧
    run (List.replicate 257 DCONST_0 ++ [HALT]) 300 newVM
      = some (.undef [] { r1 := 0, r2 := 0, stack := List.replicate 256 (0 : ℚ), pc := 257 }) := by
  decide

/-- C6: `DCONST` pushes the IEEE-754 binary64 value its 8 operand bytes
encode in wire order (most-significant byte first) and advances `pc` by 9;
the sample `readmebytecode` prints `12.540000` and returns `EXIT_SUCCESS`. -/
theorem dconst_wire_decode :
    (∀ (code : List ℕ) (s : VM) (b0 b1 b2 b3 b4 b5 b6 b7 : ℕ),
      code[s.pc]? = some DCONST →
      bytesAt code (s.pc + 1) 8 = some [b0, b1, b2, b3, b4, b5, b6, b7] →
      s.stack.length < STACK_SIZE →
      step code s
        = .cont { s with pc := s.pc + 9, stack := decodeF64 b0 b1 b2 b3 b4 b5 b6 b7 :: s.stack } []) ∧
    run readmebytecode 10 newVM = some (.terminated true
      [.val (decodeF64 0x40 0x29 0x14 0x7A 0xE1 0x47 0xAE 0x14)]
      { r1 := 0, r2 := 0, stack := [], pc := 11 }) ∧
    printLine (decodeF64 0x40 0x29 0x14 0x7A 0xE1 0x47 0xAE 0x14) = "12.540000\n" := by
  refine ⟨?_, by decide, by decide⟩
  intro code s b0 b1 b2 b3 b4 b5 b6 b7 hop hbytes hcap
  have hlen : ¬ (STACK_SIZE ≤ s.stack.length) := by omega
  simp [step, exec, hop, hbytes, HALT, NOP, DCONST_M1, DCONST_0, DCONST_1, DCONST_2, DCONST,
    pushStep, push, hlen]

/-- Witness for C6 at a concrete state: decoding the wire bytes of `1.0`. -/
theorem dconst_wire_decode_witness :
    step [DCONST, 0x3F, 0xF0, 0, 0, 0, 0, 0, 0] newVM
      = .cont { r1 := 0, r2 := 0, stack := [decodeF64 0x3F 0xF0 0 0 0 0 0 0], pc := 9 } [] :=
  dconst_wire_decode.1 [DCONST, 0x3F, 0xF0, 0, 0, 0, 0, 0, 0] newVM
    0x3F 0xF0 0 0 0 0 0 0 rfl (by decide) (by decide)

set_option maxRecDepth 100000 in
/-- C10: the bundled Fibonacci program terminates with `EXIT_SUCCESS`,
printing 0, 1, 1, 2, 3, 5, 8, 13, 21, 34, 55, 89, 144, 233.  When the
`JGT` comparison (`r1 = 100.0` against `r2 = 233.0`) fails, `pc` is left at
offset 33, the first operand byte; that byte is `0x00 = HALT`, so the run
ends there with final `pc = 34` — not at the `HALT` placed at offset 37
after the operand (which would leave `pc = 38`). -/
theorem fibonacci_sample :
    run fibonacciCode 150 newVM = some (.terminated true
      ([0, 1, 1, 2, 3, 5, 8, 13, 21, 34, 55, 89, 144, 233].map Ev.val)
      { r1 := 100, r2 := 233, stack := [233, 144], pc := 34 }) ∧
    fibonacciCode[33]? = some HALT ∧
    fibonacciCode[37]? = some HALT ∧
    (34 : ℕ) ≠ 38 := by
  decide

/-- More fuel never changes a completed run's result. -/
theorem run_mono (code : List ℕ) :
    ∀ f f' : ℕ, ∀ s : VM, ∀ r : RunRes, f ≤ f' →
      run code f s = some r → run code f' s = some r := by
  intro f
  induction f with
  | zero => intro f' s r _ h; simp [run] at h
  | succ n ih =>
    intro f' s r hle h
    obtain ⟨m, rfl⟩ : ∃ m, f' = m + 1 := ⟨f' - 1, by omega⟩
    simp only [run] at h ⊢
    rcases hs : step code s with ⟨s1, out⟩ | ⟨ok, out, sf⟩ | sf <;>
      simp only [hs] at h ⊢
    · rcases hr : run code n s1 with _ | r1
      · simp only [hr] at h
        cases h
      · have hm : run code m s1 = some r1 := ih m s1 r1 (by omega) hr
        rcases r1 with ⟨ok, out1, sf⟩ | ⟨out1, sf⟩ <;>
          simp only [hr] at h <;> simp only [hm] <;> exact h
    · exact h
    · exact h

/-- C8: `run` is a function of the bytecode buffer and the initial state —
any two completed runs (any fuel) return the same result: the same printed
sequence and the same terminal status.  (The embedding is a pure function;
the C loop reads no input and has no other source of nondeterminism.) -/
theorem run_deterministic (code : List ℕ) (f1 f2 : ℕ) (s : VM) (r1 r2 : RunRes)
    (h1 : run code f1 s = some r1) (h2 : run code f2 s = some r2) : r1 = r2 := by
  rcases Nat.le_total f1 f2 with h | h
  · have := run_mono code f1 f2 s r1 h h1
    rw [this] at h2
    exact Option.some.inj h2
  · have := run_mono code f2 f1 s r2 h h2
    rw [this] at h1
    exact (Option.some.inj h1).symm

/-- Witness for C8 at a concrete input: two runs of `[HALT]` with fuels 1
and 2. -/
theorem run_deterministic_witness :
    RunRes.terminated true [] { r1 := 0, r2 := 0, stack := [], pc := 1 }
      = RunRes.terminated true [] { r1 := 0, r2 := 0, stack := [], pc := 1 } :=
  run_deterministic [HALT] 1 2 newVM
    (.terminated true [] { r1 := 0, r2 := 0, stack := [], pc := 1 })
    (.terminated true [] { r1 := 0, r2 := 0, stack := [], pc := 1 })
    (by decide) (by decide)

/-- C1 as stated is false at `[JLT, 0, 0, 0, 0]` from the initial state:
the comparison `r1 < r2` fails, and the resulting `pc` is 1 — the offset of
the first operand byte — not the decoded target and not the first offset
past the operand. -/
theorem cond_jump_operand_not_skipped :
    step [JLT, 0, 0, 0, 0] newVM = .cont { r1 := 0, r2 := 0, stack := [], pc := 1 } [] ∧
    (1 : ℕ) ≠ decode4 0 0 0 0 ∧ (1 : ℕ) ≠ 0 + 1 + 4 := by
  decide

/-- C1 amended: a conditional jump whose comparison holds sets `pc` to the
big-endian decoding of the 4 operand bytes; when the comparison fails the
operand is NOT consumed — `pc` is left at the first operand byte, one past
the opcode. -/
theorem cond_jump_pc (code : List ℕ) (s : VM) (op b0 b1 b2 b3 : ℕ)
    (hmem : op ∈ [JEQ, JNE, JLT, JLE, JGT, JGE])
    (hop : code[s.pc]? = some op)
    (hbytes : bytesAt code (s.pc + 1) 4 = some [b0, b1, b2, b3]) :
    step code s = .cont (if jumpTest op s.r1 s.r2
      then { s with pc := decode4 b0 b1 b2 b3 }
      else { s with pc := s.pc + 1 }) [] := by
  fin_cases hmem <;>
    simp only [step, exec, hop, jumpTest, condJump, HALT, NOP, DCONST_M1, DCONST_0,
      DCONST_1, DCONST_2, DCONST, JEQ, JNE, JLT, JLE, JGT, JGE] <;>
    norm_num <;>
    split <;>
    simp [hbytes]

/-- Witness for C1 at a concrete state: a taken `JGT` (`r1 = 1 > r2 = 0`)
jumps to the decoded address 6. -/
theorem cond_jump_pc_witness :
    step [JGT, 0, 0, 0, 6] { r1 := 1, r2 := 0, stack := [], pc := 0 }
      = .cont (if jumpTest JGT 1 0
          then { r1 := 1, r2 := 0, stack := [], pc := decode4 0 0 0 6 }
          else { r1 := 1, r2 := 0, stack := [], pc := 1 }) [] :=
  cond_jump_pc [JGT, 0, 0, 0, 6] { r1 := 1, r2 := 0, stack := [], pc := 0 }
    JGT 0 0 0 6 (by decide) rfl (by decide)

/-- Fetching a byte reduces `step` to the `switch`. -/
theorem step_fetch (code : List ℕ) (s : VM) (op : ℕ) (hop : code[s.pc]? = some op) :
    step code s = exec code op { s with pc := s.pc + 1 } := by
  simp [step, hop]

/-- Only the `ST1` case of the `switch` writes `r1`. -/
theorem exec_state_r1 (code : List ℕ) (opc : ℕ) (s : VM) (hne : opc ≠ ST1) :
    (exec code opc s).state.r1 = s.r1 := by
  unfold exec
  by_cases hH : opc = HALT
  · rw [if_pos hH]
    rfl
  rw [if_neg hH]
  by_cases hN : opc = NOP
  · rw [if_pos hN]
    rfl
  rw [if_neg hN]
  by_cases hM1 : opc = DCONST_M1
  · rw [if_pos hM1]
    exact pushStep_state_r1 _ _
  rw [if_neg hM1]
  by_cases h0 : opc = DCONST_0
  · rw [if_pos h0]
    exact pushStep_state_r1 _ _
  rw [if_neg h0]
  by_cases h1 : opc = DCONST_1
  · rw [if_pos h1]
    exact pushStep_state_r1 _ _
  rw [if_neg h1]
  by_cases h2 : opc = DCONST_2
  · rw [if_pos h2]
    exact pushStep_state_r1 _ _
  rw [if_neg h2]
  by_cases hDC : opc = DCONST
  · rw [if_pos hDC]
    split
    · exact pushStep_state_r1 _ _
    · rfl
  rw [if_neg hDC]
  by_cases hJE : opc = JEQ
  · rw [if_pos hJE]
    exact condJump_state_r1 _ _ _
  rw [if_neg hJE]
  by_cases hJN : opc = JNE
  · rw [if_pos hJN]
    exact condJump_state_r1 _ _ _
  rw [if_neg hJN]
  by_cases hJL : opc = JLT
  · rw [if_pos hJL]
    exact condJump_state_r1 _ _ _
  rw [if_neg hJL]
  by_cases hJLE : opc = JLE
  · rw [if_pos hJLE]
    exact condJump_state_r1 _ _ _
  rw [if_neg hJLE]
  by_cases hJG : opc = JGT
  · rw [if_pos hJG]
    exact condJump_state_r1 _ _ _
  rw [if_neg hJG]
  by_cases hJGE : opc = JGE
  · rw [if_pos hJGE]
    exact condJump_state_r1 _ _ _
  rw [if_neg hJGE]
  by_cases hA : opc = ADD
  · rw [if_pos hA]
    exact binopStep_state_r1 _ _
  rw [if_neg hA]
  by_cases hM : opc = MUL
  · rw [if_pos hM]
    exact binopStep_state_r1 _ _
  rw [if_neg hM]
  by_cases hS : opc = SUB
  · rw [if_pos hS]
    exact binopStep_state_r1 _ _
  rw [if_neg hS]
  by_cases hDV : opc = DIV
  · rw [if_pos hDV]
    exact divStep_state_r1 _
  rw [if_neg hDV]
  by_cases hNG : opc = NEG
  · rw [if_pos hNG]
    exact negStep_state_r1 _
  rw [if_neg hNG]
  by_cases hL1 : opc = LD1
  · rw [if_pos hL1]
    exact pushStep_state_r1 _ _
  rw [if_neg hL1]
  by_cases hS1 : opc = ST1
  · rw [if_pos hS1]
    exact absurd hS1 hne
  rw [if_neg hS1]
  by_cases hL2 : opc = LD2
  · rw [if_pos hL2]
    exact pushStep_state_r1 _ _
  rw [if_neg hL2]
  by_cases hS2 : opc = ST2
  · rw [if_pos hS2]
    exact st2Step_state_r1 _
  rw [if_neg hS2]
  by_cases hP : opc = PRINT
  · rw [if_pos hP]
    exact printStep_state_r1 _
  rw [if_neg hP]
  rfl

/-- Only `ST1` changes `r1` across one full instruction. -/
theorem step_state_r1 (code : List ℕ) (s : VM) (op : ℕ)
    (hop : code[s.pc]? = some op) (hne : op ≠ ST1) :
    (step code s).state.r1 = s.r1 := by
  rw [step_fetch code s op hop]
  exact exec_state_r1 code op _ hne

/-- Only the `ST2` case of the `switch` writes `r2`. -/
theorem exec_state_r2 (code : List ℕ) (opc : ℕ) (s : VM) (hne : opc ≠ ST2) :
    (exec code opc s).state.r2 = s.r2 := by
  unfold exec
  by_cases hH : opc = HALT
  · rw [if_pos hH]
    rfl
  rw [if_neg hH]
  by_cases hN : opc = NOP
  · rw [if_pos hN]
    rfl
  rw [if_neg hN]
  by_cases hM1 : opc = DCONST_M1
  · rw [if_pos hM1]
    exact pushStep_state_r2 _ _
  rw [if_neg hM1]
  by_cases h0 : opc = DCONST_0
  · rw [if_pos h0]
    exact pushStep_state_r2 _ _
  rw [if_neg h0]
  by_cases h1 : opc = DCONST_1
  · rw [if_pos h1]
    exact pushStep_state_r2 _ _
  rw [if_neg h1]
  by_cases h2 : opc = DCONST_2
  · rw [if_pos h2]
    exact pushStep_state_r2 _ _
  rw [if_neg h2]
  by_cases hDC : opc = DCONST
  · rw [if_pos hDC]
    split
    · exact pushStep_state_r2 _ _
    · rfl
  rw [if_neg hDC]
  by_cases hJE : opc = JEQ
  · rw [if_pos hJE]
    exact condJump_state_r2 _ _ _
  rw [if_neg hJE]
  by_cases hJN : opc = JNE
  · rw [if_pos hJN]
    exact condJump_state_r2 _ _ _
  rw [if_neg hJN]
  by_cases hJL : opc = JLT
  · rw [if_pos hJL]
    exact condJump_state_r2 _ _ _
  rw [if_neg hJL]
  by_cases hJLE : opc = JLE
  · rw [if_pos hJLE]
    exact condJump_state_r2 _ _ _
  rw [if_neg hJLE]
  by_cases hJG : opc = JGT
  · rw [if_pos hJG]
    exact condJump_state_r2 _ _ _
  rw [if_neg hJG]
  by_cases hJGE : opc = JGE
  · rw [if_pos hJGE]
    exact condJump_state_r2 _ _ _
  rw [if_neg hJGE]
  by_cases hA : opc = ADD
  · rw [if_pos hA]
    exact binopStep_state_r2 _ _
  rw [if_neg hA]
  by_cases hM : opc = MUL
  · rw [if_pos hM]
    exact binopStep_state_r2 _ _
  rw [if_neg hM]
  by_cases hS : opc = SUB
  · rw [if_pos hS]
    exact binopStep_state_r2 _ _
  rw [if_neg hS]
  by_cases hDV : opc = DIV
  · rw [if_pos hDV]
    exact divStep_state_r2 _
  rw [if_neg hDV]
  by_cases hNG : opc = NEG
  · rw [if_pos hNG]
    exact negStep_state_r2 _
  rw [if_neg hNG]
  by_cases hL1 : opc = LD1
  · rw [if_pos hL1]
    exact pushStep_state_r2 _ _
  rw [if_neg hL1]
  by_cases hS1 : opc = ST1
  · rw [if_pos hS1]
    exact st1Step_state_r2 _
  rw [if_neg hS1]
  by_cases hL2 : opc = LD2
  · rw [if_pos hL2]
    exact pushStep_state_r2 _ _
  rw [if_neg hL2]
  by_cases hS2 : opc = ST2
  · rw [if_pos hS2]
    exact absurd hS2 hne
  rw [if_neg hS2]
  by_cases hP : opc = PRINT
  · rw [if_pos hP]
    exact printStep_state_r2 _
  rw [if_neg hP]
  rfl

/-- Only `ST2` changes `r2` across one full instruction. -/
theorem step_state_r2 (code : List ℕ) (s : VM) (op : ℕ)
    (hop : code[s.pc]? = some op) (hne : op ≠ ST2) :
    (step code s).state.r2 = s.r2 := by
  rw [step_fetch code s op hop]
  exact exec_state_r2 code op _ hne

/-- C7: both registers start at `0.0`; one instruction leaves `r1`
unchanged unless it is `ST1` and leaves `r2` unchanged unless it is `ST2`;
`LD1`/`LD2` push the register's value and modify neither register; and
`ST1`/`ST2` always succeed (a `cont` outcome, no failure) whenever the
popped operand exists. -/
theorem registers_model :
    newVM.r1 = 0 ∧ newVM.r2 = 0 ∧
    ∀ (code : List ℕ) (s : VM) (op : ℕ), code[s.pc]? = some op →
      (op ≠ ST1 → (step code s).state.r1 = s.r1) ∧
      (op ≠ ST2 → (step code s).state.r2 = s.r2) ∧
      (op = LD1 → s.stack.length < STACK_SIZE →
        step code s = .cont { s with pc := s.pc + 1, stack := s.r1 :: s.stack } []) ∧
      (op = LD2 → s.stack.length < STACK_SIZE →
        step code s = .cont { s with pc := s.pc + 1, stack := s.r2 :: s.stack } []) ∧
      (op = ST1 → ∀ (v : ℚ) (rest : List ℚ), s.stack = v :: rest →
        step code s = .cont { s with r1 := v, pc := s.pc + 1, stack := rest } []) ∧
      (op = ST2 → ∀ (v : ℚ) (rest : List ℚ), s.stack = v :: rest →
        step code s = .cont { s with r2 := v, pc := s.pc + 1, stack := rest } []) := by
  refine ⟨rfl, rfl, fun code s op hop => ⟨fun hne => step_state_r1 code s op hop hne,
    fun hne => step_state_r2 code s op hop hne, ?_, ?_, ?_, ?_⟩⟩
  · intro h hc
    subst h
    have hlen : ¬ (STACK_SIZE ≤ s.stack.length) := by omega
    simp [step, exec, hop, HALT, NOP, DCONST_M1, DCONST_0, DCONST_1, DCONST_2, DCONST,
      JEQ, JNE, JLT, JLE, JGT, JGE, ADD, MUL, SUB, DIV, NEG, LD1,
      pushStep, push, hlen]
  · intro h hc
    subst h
    have hlen : ¬ (STACK_SIZE ≤ s.stack.length) := by omega
    simp [step, exec, hop, HALT, NOP, DCONST_M1, DCONST_0, DCONST_1, DCONST_2, DCONST,
      JEQ, JNE, JLT, JLE, JGT, JGE, ADD, MUL, SUB, DIV, NEG, LD1, ST1, LD2,
      pushStep, push, hlen]
  · intro h v rest hstack
    subst h
    simp [step, exec, hop, HALT, NOP, DCONST_M1, DCONST_0, DCONST_1, DCONST_2, DCONST,
      JEQ, JNE, JLT, JLE, JGT, JGE, ADD, MUL, SUB, DIV, NEG, LD1, ST1,
      st1Step, pop, hstack]
  · intro h v rest hstack
    subst h
    simp [step, exec, hop, HALT, NOP, DCONST_M1, DCONST_0, DCONST_1, DCONST_2, DCONST,
      JEQ, JNE, JLT, JLE, JGT, JGE, ADD, MUL, SUB, DIV, NEG, LD1, ST1, LD2, ST2,
      st2Step, pop, hstack]

/-- Witness for C7 at a concrete state: `LD1` pushes `r1 = 7` and leaves
`r1` unchanged. -/
theorem registers_model_witness :
    (step [LD1] { r1 := 7, r2 := 8, stack := [], pc := 0 }).state.r1 = (7 : ℚ) ∧
    step [LD1] { r1 := 7, r2 := 8, stack := [], pc := 0 }
      = .cont { r1 := 7, r2 := 8, stack := [7], pc := 1 } [] :=
  ⟨(registers_model.2.2 [LD1] { r1 := 7, r2 := 8, stack := [], pc := 0 } LD1 rfl).1
      (by decide),
   ((registers_model.2.2 [LD1] { r1 := 7, r2 := 8, stack := [], pc := 0 } LD1 rfl).2.2.1
      rfl (by decide))⟩
